import Mathlib

/-
  Verification development for the monorepolint rule-execution engine
  (packages/core/src/check.ts).

  The TypeScript code is embedded shallowly: the engine's sequential
  async control flow becomes explicit state passing over a state record
  `St`; `process.hrtime.bigint()` becomes an abstract clock `Env.clock`
  sampled at a tick counter; the JS `Map` used for per-rule stats becomes
  an association list with JS-Map get/set semantics; external
  collaborators (glob matcher, workspace discovery, path resolution, the
  rules' own check operations) are parameters in `Env` / `ResolvedRule`.
  A ghost event trace records the observable actions (validator calls,
  glob evaluations, rule check start/end, scope finish, printStats
  invocations) so that ordering and once-ness properties can be stated.

  The scope-context behavior (`Context.finish` sealing a scope's failed
  flag into the workspace context) is not part of check.ts; it is
  modelled from the spec where noted.
-/

namespace Mrl

def unknownName : String := "unknown"

/-- Ghost events recording the engine's observable actions, in
chronological order. -/
inductive Event where
  | validate (idx : Nat)
  | globExclude (scopeName : String)
  | globInclude (scopeName : String)
  | checkStart (scopeName : String) (idx : Nat)
  | checkEnd (scopeName : String) (idx : Nat)
  | finish (scopeName : String) (failed : Bool)
  | printStats (fid : Nat)
  deriving DecidableEq, Repr

/-- One bucket of the per-rule stats map: `{ name, totalTime, executions }`
(check.ts line 38). -/
structure RuleStats where
  name : String
  totalTime : Int
  executions : Nat
  deriving DecidableEq, Repr

/-- The threaded run state: clock tick counter, the two process-wide glob
cost counters (check.ts lines 197-198), the per-rule stats map, the
`packagesChecked` counter, the workspace context's aggregate failed flag,
and the ghost trace. -/
structure St where
  time : Nat
  includesCost : Int
  excludesCost : Int
  perRule : List (String × RuleStats)
  packagesChecked : Nat
  workspaceFailed : Bool
  trace : List Event
  deriving DecidableEq, Repr

/-- Observable behavior of one rule's asynchronous `check` operation on a
given scope: it either completes (possibly marking the scope failed) or
rejects with an exception. -/
inductive CheckBehavior where
  | ok (marksFailed : Bool)
  | throws
  deriving DecidableEq, Repr

/-- A resolved rule (Config.ts shape, as consumed by check.ts): `name` may
be absent, `optionsValid` models whether `optionsRuntype.check(options)`
succeeds, `printStats` is an optional hook identified by reference
identity (a `Nat` id models the function reference), and `check` gives
the rule's behavior as a function of the scope name. -/
structure ResolvedRule where
  id : Nat
  name : Option String
  includeWorkspaceRoot : Bool
  includePackages : Option (List String)
  excludePackages : Option (List String)
  optionsValid : Bool
  printStats : Option Nat
  check : String → CheckBehavior

/-- The resolved config: the ordered rule list plus the verbose flag. -/
structure ResolvedConfig where
  rules : List ResolvedRule
  verbose : Bool

/-- Modelled from the spec: a Scope Context (Context.ts is not part of the
excerpt). It carries the human-readable name used for display and glob
matching, and whether it is the workspace-root scope (in the source,
`context.getWorkspaceContext() === context`). -/
structure Scope where
  name : String
  isRoot : Bool
  deriving DecidableEq, Repr

/-- External collaborators: the monotonic nanosecond clock read by
`process.hrtime.bigint()` (indexed by the tick counter), the glob
matcher, workspace discovery, the workspace's package dirs, and
`dirname(resolve(p))` for explicit paths. -/
structure Env where
  clock : Nat → Int
  matchesAnyGlob : String → List String → Bool
  findWorkspaceDir : String → Option String
  packageDirs : List String
  resolveDir : String → String

/-- Advance the clock tick counter (one `process.hrtime.bigint()` call). -/
def tick (s : St) : St := { s with time := s.time + 1 }

/-- Fresh-process state at the start of a run: empty stats, zero glob-cost
counters, workspace context not failed. -/
def initSt : St :=
  { time := 0, includesCost := 0, excludesCost := 0, perRule := [],
    packagesChecked := 0, workspaceFailed := false, trace := [] }

/-- JS `Map.get`: first (and only) binding of the key. -/
def mapGet (m : List (String × RuleStats)) (k : String) : Option RuleStats :=
  match m with
  | [] => none
  | (k₁, v₁) :: rest => if k₁ = k then some v₁ else mapGet rest k

/-- JS `Map.set`: replace the binding in place, or append a new one. -/
def mapSet (m : List (String × RuleStats)) (k : String) (v : RuleStats) :
    List (String × RuleStats) :=
  match m with
  | [] => [(k, v)]
  | (k₁, v₁) :: rest => if k₁ = k then (k, v) :: rest else (k₁, v₁) :: mapSet rest k v

/-- The fresh stats bucket created when a rule name is first seen
(check.ts lines 161-165). -/
def defaultStats (k : String) : RuleStats :=
  { name := k, totalTime := 0, executions := 0 }

/-- `shouldSkipPackage` (check.ts lines 206-230): short-circuit for
workspace-root-exempt rules, then the exclude glob, then the include
glob, each surrounded by the cost-counter timestamps. Returns the skip
decision together with the updated state. -/
def shouldSkipPackage (env : Env) (context : Scope) (ruleConfig : ResolvedRule)
    (s : St) : Bool × St :=
  if !ruleConfig.includeWorkspaceRoot && context.isRoot then
    (true, s)
  else
    let t₁ := env.clock s.time
    let s := tick s
    let s := { s with excludesCost := s.excludesCost - t₁,
                      trace := s.trace ++
                        (if ruleConfig.excludePackages.isSome
                         then [Event.globExclude context.name] else []) }
    let exclude := (ruleConfig.excludePackages.map
      (fun pats => env.matchesAnyGlob context.name pats)).getD false
    let t₂ := env.clock s.time
    let s := tick s
    let s := { s with excludesCost := s.excludesCost + t₂ }
    if exclude then (true, s)
    else
      let t₃ := env.clock s.time
      let s := tick s
      let s := { s with includesCost := s.includesCost - t₃,
                        trace := s.trace ++
                          (if ruleConfig.includePackages.isSome
                           then [Event.globInclude context.name] else []) }
      let inc := (ruleConfig.includePackages.map
        (fun pats => env.matchesAnyGlob context.name pats)).getD true
      let t₄ := env.clock s.time
      let s := tick s
      let s := { s with includesCost := s.includesCost + t₄ }
      if !inc then (true, s) else (false, s)

/-- The skip decision alone, as a pure predicate (same branching as
`shouldSkipPackage`, without the cost accounting). -/
def skipDecision (env : Env) (context : Scope) (ruleConfig : ResolvedRule) : Bool :=
  if !ruleConfig.includeWorkspaceRoot && context.isRoot then true
  else if (ruleConfig.excludePackages.map
      (fun pats => env.matchesAnyGlob context.name pats)).getD false then true
  else if !((ruleConfig.includePackages.map
      (fun pats => env.matchesAnyGlob context.name pats)).getD true) then true
  else false

/-- The opening of one rule iteration (check.ts lines 160-168): look up /
create the stats bucket, store it in the map, bump `executions`, and
subtract the start timestamp from its `totalTime`. In the source the
bucket is a shared mutable object, so the map's entry reflects the
increments; here the updated bucket is written back with `mapSet`. -/
def chargeStart (env : Env) (ruleConfig : ResolvedRule) (s : St) : St :=
  let ruleName := ruleConfig.name.getD unknownName
  let data₀ := (mapGet s.perRule ruleName).getD (defaultStats ruleName)
  let t₁ := env.clock s.time
  let data₁ := { data₀ with executions := data₀.executions + 1,
                            totalTime := data₀.totalTime - t₁ }
  { tick s with perRule := mapSet s.perRule ruleName data₁ }

/-- `data.totalTime += process.hrtime.bigint()` (check.ts lines 171 and
178): add the end timestamp to the rule's bucket. The source mutates the
shared bucket object already stored in the map; here the current entry is
read back and updated. -/
def bumpTotal (env : Env) (ruleName : String) (s : St) : St :=
  let d := (mapGet s.perRule ruleName).getD (defaultStats ruleName)
  let t₂ := env.clock s.time
  let d₂ := { d with totalTime := d.totalTime + t₂ }
  { tick s with perRule := mapSet s.perRule ruleName d₂ }

/-- One iteration of the rule loop of `checkPackage` (check.ts lines
159-178): charge the start timestamp, evaluate the skip decision, then
either charge the end timestamp and continue (skip), or run the rule's
check operation — which may throw, propagating the partial state — and
charge the end timestamp. -/
def checkRuleStep (env : Env) (context : Scope) (idx : Nat)
    (ruleConfig : ResolvedRule) (s : St) : Except St (Bool × St) :=
  let ruleName := ruleConfig.name.getD unknownName
  let skipR := shouldSkipPackage env context ruleConfig (chargeStart env ruleConfig s)
  if skipR.1 then
    Except.ok (false, bumpTotal env ruleName skipR.2)
  else
    let s₃ := { skipR.2 with trace := skipR.2.trace ++ [Event.checkStart context.name idx] }
    match ruleConfig.check context.name with
    | CheckBehavior.throws => Except.error s₃
    | CheckBehavior.ok marks =>
      Except.ok (marks, bumpTotal env ruleName
        { s₃ with trace := s₃.trace ++ [Event.checkEnd context.name idx] })

/-- The rule loop of `checkPackage`, carrying the positional index of the
next rule and the scope's accumulated failed flag; a thrown check
propagates the state at the throw point. -/
def runRulesFrom (env : Env) (context : Scope) :
    Nat → List ResolvedRule → Bool → St → Except St (Bool × St)
  | _, [], failed, s => Except.ok (failed, s)
  | idx, r :: rest, failed, s =>
    match checkRuleStep env context idx r s with
    | Except.error e => Except.error e
    | Except.ok (marks, s₁) => runRulesFrom env context (idx + 1) rest (failed || marks) s₁

/-- `checkPackage` (check.ts lines 149-181): run every rule of the config
in declared order, then call the scope's `finish()`. Modelled from the
spec: `finish` seals the scope's failed flag into the workspace context's
aggregate `failed` flag (Context.ts is not part of the excerpt). -/
def checkPackage (env : Env) (context : Scope) (rules : List ResolvedRule)
    (s : St) : Except St St :=
  match runRulesFrom env context 0 rules false s with
  | Except.error e => Except.error e
  | Except.ok (failed, s₁) =>
    Except.ok { s₁ with workspaceFailed := s₁.workspaceFailed || failed,
                        trace := s₁.trace ++ [Event.finish context.name failed] }

/-- The config-validation loop of `check` (check.ts lines 31-33):
`optionsRuntype.check(options)` for every rule, in order; a validator
that throws aborts the run at that point. -/
def validateRules : Nat → List ResolvedRule → St → Except St St
  | _, [], s => Except.ok s
  | i, r :: rest, s =>
    let s := { s with trace := s.trace ++ [Event.validate i] }
    if r.optionsValid then validateRules (i + 1) rest s
    else Except.error s

/-- The target-scope resolution of `check` (check.ts lines 41-64):
explicit paths are resolved through `dirname(resolve(p))` and compared
with the workspace root; otherwise a full-workspace run (root plus every
package dir) when `cwd` is the root, else the single `cwd` package. -/
def targetScopes (env : Env) (workspaceDir : String) (cwd : String)
    (paths : Option (List String)) : List Scope :=
  match paths with
  | some ps => ps.map (fun p =>
      let d := env.resolveDir p
      if workspaceDir = d then { name := workspaceDir, isRoot := true }
      else { name := d, isRoot := false })
  | none =>
    if workspaceDir = cwd then
      { name := workspaceDir, isRoot := true } ::
        env.packageDirs.map (fun d => { name := d, isRoot := false })
    else
      [{ name := cwd, isRoot := false }]

/-- The scope loop of `check`: bump `packagesChecked`, then `checkPackage`,
sequentially; a thrown check propagates. -/
def checkScopes (env : Env) (rules : List ResolvedRule) :
    List Scope → St → Except St St
  | [], s => Except.ok s
  | sc :: rest, s =>
    let s := { s with packagesChecked := s.packagesChecked + 1 }
    match checkPackage env sc rules s with
    | Except.error e => Except.error e
    | Except.ok s₁ => checkScopes env rules rest s₁

/-- The `printStats` de-duplication loop of `check` (check.ts lines
137-143): invoke each rule's `printStats` hook unless the identical
function reference was already invoked, tracking the `executed` set. -/
def runPrintStats : List ResolvedRule → List Nat → St → St
  | [], _, s => s
  | r :: rest, executed, s =>
    match r.printStats with
    | none => runPrintStats rest executed s
    | some fid =>
      if fid ∈ executed then runPrintStats rest executed s
      else runPrintStats rest (fid :: executed)
        { s with trace := s.trace ++ [Event.printStats fid] }

/-- `check` (check.ts lines 14-147): find the workspace root (throwing if
none), construct the workspace context, validate the config once, check
every target scope, optionally run the stats-reporting pass, and return
the negation of the workspace context's aggregate failed flag. The four
`tick`s are the four `process.hrtime.bigint()` samples taken directly by
`check`. -/
def check (env : Env) (resolvedConfig : ResolvedConfig) (cwd : String)
    (paths : Option (List String)) (reportStats : Bool) : Except St (Bool × St) :=
  let s := tick initSt
  match env.findWorkspaceDir cwd with
  | none => Except.error s
  | some workspaceDir =>
    let s := tick s
    match validateRules 0 resolvedConfig.rules s with
    | Except.error e => Except.error e
    | Except.ok s₁ =>
      let s₂ := tick s₁
      match checkScopes env resolvedConfig.rules
          (targetScopes env workspaceDir cwd paths) s₂ with
      | Except.error e => Except.error e
      | Except.ok s₃ =>
        let s₄ := tick s₃
        let s₅ := if reportStats then runPrintStats resolvedConfig.rules [] s₄ else s₄
        Except.ok (!s₅.workspaceFailed, s₅)

/-- Event classifier: glob-evaluation events. -/
def isGlob : Event → Bool
  | Event.globExclude _ => true
  | Event.globInclude _ => true
  | _ => false

/-- Event classifier: include-glob evaluations. -/
def isGlobInclude : Event → Bool
  | Event.globInclude _ => true
  | _ => false

/-- Event classifier: validator invocations. -/
def isValidateEv : Event → Bool
  | Event.validate _ => true
  | _ => false

/-- Event classifier: printStats invocations. -/
def isPrintEv : Event → Bool
  | Event.printStats _ => true
  | _ => false

/-- Event classifier: scope finish events. -/
def isFinishEv : Event → Bool
  | Event.finish _ _ => true
  | _ => false

/-- Event classifier: a finish event that sealed a failed scope. -/
def isFailedFinish : Event → Bool
  | Event.finish _ true => true
  | _ => false

/-- Event classifier: the events relevant to the scheduling claims (rule
check boundaries and scope finish). -/
def isSeqEvent : Event → Bool
  | Event.checkStart _ _ => true
  | Event.checkEnd _ _ => true
  | Event.finish _ _ => true
  | _ => false

/-- Events a `checkRuleStep` may emit (glob evaluations and rule check
boundaries; never validate, finish, or printStats). -/
def stepEvent : Event → Bool
  | Event.globExclude _ => true
  | Event.globInclude _ => true
  | Event.checkStart _ _ => true
  | Event.checkEnd _ _ => true
  | _ => false

/-- Events the scope loop may emit (step events plus finish). -/
def scopeEvent (e : Event) : Bool := stepEvent e || isFinishEv e

/-- The scheduling-relevant sub-trace. -/
def seqEvents (t : List Event) : List Event := t.filter isSeqEvent

/-- The scheduling sub-trace the rule loop of one scope is expected to
produce: for each rule in declared order, nothing when skipped, else a
checkStart immediately followed by the matching checkEnd. -/
def expectedSeq (env : Env) (c : Scope) : Nat → List ResolvedRule → List Event
  | _, [] => []
  | i, r :: rest =>
    (if skipDecision env c r then []
     else [Event.checkStart c.name i, Event.checkEnd c.name i])
      ++ expectedSeq env c (i + 1) rest

/-- Whether some scope was sealed as failed in the trace. -/
def anyScopeFailed (t : List Event) : Bool := t.any isFailedFinish

/-- Sum of the `executions` counters over every stats bucket. -/
def sumExecutions (m : List (String × RuleStats)) : Nat :=
  (m.map (fun p => p.2.executions)).sum

/-- The keys of the stats map. -/
def mapKeys (m : List (String × RuleStats)) : List String := m.map Prod.fst

/-- The effective stats-bucket names of the rules (missing names become
the shared unknown-name bucket). -/
def effNames (rules : List ResolvedRule) : List String :=
  rules.map (fun r => r.name.getD unknownName)

/-- The totalTime of a bucket (0 when the bucket does not exist yet). -/
def totalTimeOf (s : St) (k : String) : Int :=
  ((mapGet s.perRule k).map RuleStats.totalTime).getD 0

/-- Whether a run result is a normal completion. -/
def runOk {α : Type} : Except St α → Bool
  | Except.ok _ => true
  | Except.error _ => false

/-- The boolean a completed `check` run resolved to. -/
def runResult : Except St (Bool × St) → Bool
  | Except.ok (b, _) => b
  | Except.error _ => false

/-- The final state of a `check` run (or the state at the throw point). -/
def runStateOf : Except St (Bool × St) → St
  | Except.ok (_, s) => s
  | Except.error s => s

/-- The final state of a `checkPackage` run (or the state at the throw
point). -/
def stStateOf : Except St St → St
  | Except.ok s => s
  | Except.error s => s

theorem mapGet_mapSet_self (m : List (String × RuleStats)) (k : String) (v : RuleStats) :
    mapGet (mapSet m k v) k = some v := by
  induction m with
  | nil => simp [mapGet, mapSet]
  | cons hd tl ih =>
    obtain ⟨k₁, v₁⟩ := hd
    by_cases h : k₁ = k <;> simp [mapGet, mapSet, h, ih]

theorem mapGet_mapSet_ne (m : List (String × RuleStats)) (k k₂ : String) (v : RuleStats)
    (h : k₂ ≠ k) : mapGet (mapSet m k v) k₂ = mapGet m k₂ := by
  have hne : k ≠ k₂ := fun he => h (Eq.symm he)
  induction m with
  | nil => simp [mapGet, mapSet, hne]
  | cons hd tl ih =>
    obtain ⟨k₁, v₁⟩ := hd
    by_cases h₁ : k₁ = k
    · subst h₁
      simp [mapGet, mapSet, hne]
    · simp [mapGet, mapSet, h₁, ih]

theorem mapSet_mapSet_self (m : List (String × RuleStats)) (k : String) (v w : RuleStats) :
    mapSet (mapSet m k v) k w = mapSet m k w := by
  induction m with
  | nil => simp [mapSet]
  | cons hd tl ih =>
    obtain ⟨k₁, v₁⟩ := hd
    by_cases h : k₁ = k <;> simp [mapSet, h, ih]

theorem sumExecutions_mapSet (m : List (String × RuleStats)) (k : String) (v : RuleStats) :
    sumExecutions (mapSet m k v) + ((mapGet m k).map RuleStats.executions).getD 0
      = sumExecutions m + v.executions := by
  induction m with
  | nil => simp [sumExecutions, mapSet, mapGet]
  | cons hd tl ih =>
    obtain ⟨k₁, v₁⟩ := hd
    by_cases h : k₁ = k
    · subst h
      simp [sumExecutions, mapSet, mapGet]
      omega
    · simp [sumExecutions, mapSet, mapGet, h] at ih ⊢
      omega

theorem mapGet_none_iff (m : List (String × RuleStats)) (k : String) :
    mapGet m k = none ↔ k ∉ mapKeys m := by
  induction m with
  | nil => simp [mapGet, mapKeys]
  | cons hd tl ih =>
    obtain ⟨k₁, v₁⟩ := hd
    by_cases h : k₁ = k
    · subst h
      simp [mapGet, mapKeys]
    · have hne : ¬k = k₁ := fun he => h (Eq.symm he)
      simp [mapGet, mapKeys, h, ih, hne]

theorem mapKeys_mapSet_eq (m : List (String × RuleStats)) (k : String) (v : RuleStats) :
    mapKeys (mapSet m k v)
      = if (mapGet m k).isSome then mapKeys m else mapKeys m ++ [k] := by
  induction m with
  | nil => simp [mapKeys, mapSet, mapGet]
  | cons hd tl ih =>
    obtain ⟨k₁, v₁⟩ := hd
    by_cases h : k₁ = k
    · subst h
      simp [mapKeys, mapSet, mapGet]
    · by_cases h₂ : (mapGet tl k).isSome <;>
        simp [mapKeys, mapSet, mapGet, h, h₂] at ih ⊢ <;> simp [ih]

theorem mapKeys_mapSet (m : List (String × RuleStats)) (k : String) (v : RuleStats) :
    ∀ k₂ ∈ mapKeys (mapSet m k v), k₂ = k ∨ k₂ ∈ mapKeys m := by
  intro k₂ hk
  rw [mapKeys_mapSet_eq] at hk
  by_cases h : (mapGet m k).isSome
  · exact Or.inr (by simpa [h] using hk)
  · simp [h] at hk
    rcases hk with hk | hk
    · exact Or.inr hk
    · exact Or.inl hk

theorem nodup_mapKeys_mapSet (m : List (String × RuleStats)) (k : String) (v : RuleStats)
    (h : (mapKeys m).Nodup) : (mapKeys (mapSet m k v)).Nodup := by
  rw [mapKeys_mapSet_eq]
  by_cases hs : (mapGet m k).isSome
  · simpa [hs] using h
  · have hnone : mapGet m k = none := by
      cases hg : mapGet m k
      · rfl
      · simp [hg] at hs
    have hnot : k ∉ mapKeys m := (mapGet_none_iff m k).mp hnone
    simp [hs, List.nodup_append, h, hnot]

theorem length_eq_length_mapKeys (m : List (String × RuleStats)) :
    m.length = (mapKeys m).length := by
  simp [mapKeys]

theorem all_imp_of {p q : Event → Bool} (hpq : ∀ e, p e = true → q e = true) :
    ∀ l : List Event, l.all p = true → l.all q = true := by
  intro l hl
  simp only [List.all_eq_true] at hl ⊢
  exact fun e he => hpq e (hl e he)

theorem filter_nil_of_all {p q : Event → Bool} (l : List Event)
    (hl : l.all p = true) (hpq : ∀ e, p e = true → q e = false) :
    l.filter q = [] := by
  induction l with
  | nil => rfl
  | cons hd tl ih =>
    simp only [List.all_cons, Bool.and_eq_true] at hl
    simp [List.filter_cons, hpq hd hl.1, ih hl.2]

theorem count_append_of_all {p : Event → Bool} (t ext : List Event) (ev : Event)
    (hl : ext.all p = true) (hev : p ev = false) :
    List.count ev (t ++ ext) = List.count ev t := by
  have hnot : ev ∉ ext := by
    intro hmem
    simp only [List.all_eq_true] at hl
    rw [hl ev hmem] at hev
    cases hev
  simp [List.count_append, List.count_eq_zero.mpr hnot]

theorem countP_append_of_all {p q : Event → Bool} (t ext : List Event)
    (hl : ext.all p = true) (hpq : ∀ e, p e = true → q e = false) :
    List.countP q (t ++ ext) = List.countP q t := by
  have : ext.countP q = 0 := by
    rw [List.countP_eq_zero]
    intro e he
    simp only [List.all_eq_true] at hl
    simp [hpq e (hl e he)]
  simp [List.countP_append, this]

theorem any_append_of_all {p q : Event → Bool} (t ext : List Event)
    (hl : ext.all p = true) (hpq : ∀ e, p e = true → q e = false) :
    List.any (t ++ ext) q = List.any t q := by
  have : ext.any q = false := by
    simp only [List.any_eq_false]
    intro e he
    simp only [List.all_eq_true] at hl
    simp [hpq e (hl e he)]
  simp [List.any_append, this]

theorem shouldSkipPackage_fst (env : Env) (c : Scope) (r : ResolvedRule) (s : St) :
    (shouldSkipPackage env c r s).1 = skipDecision env c r := by
  unfold shouldSkipPackage skipDecision
  by_cases h₁ : (!r.includeWorkspaceRoot && c.isRoot) = true
  · simp [h₁]
  · by_cases h₂ : ((r.excludePackages.map
        (fun pats => env.matchesAnyGlob c.name pats)).getD false) = true
    · simp [h₁, h₂]
    · by_cases h₃ : (!(r.includePackages.map
          (fun pats => env.matchesAnyGlob c.name pats)).getD true) = true
      · simp [h₁, h₂, h₃]
      · simp [h₁, h₂, h₃]

theorem shouldSkipPackage_perRule (env : Env) (c : Scope) (r : ResolvedRule) (s : St) :
    (shouldSkipPackage env c r s).2.perRule = s.perRule := by
  unfold shouldSkipPackage
  by_cases h₁ : (!r.includeWorkspaceRoot && c.isRoot) = true <;>
    by_cases h₂ : ((r.excludePackages.map
      (fun pats => env.matchesAnyGlob c.name pats)).getD false) = true <;>
    by_cases h₃ : (!(r.includePackages.map
      (fun pats => env.matchesAnyGlob c.name pats)).getD true) = true <;>
    simp [h₁, h₂, h₃, tick]

theorem shouldSkipPackage_packagesChecked (env : Env) (c : Scope) (r : ResolvedRule) (s : St) :
    (shouldSkipPackage env c r s).2.packagesChecked = s.packagesChecked := by
  unfold shouldSkipPackage
  by_cases h₁ : (!r.includeWorkspaceRoot && c.isRoot) = true <;>
    by_cases h₂ : ((r.excludePackages.map
      (fun pats => env.matchesAnyGlob c.name pats)).getD false) = true <;>
    by_cases h₃ : (!(r.includePackages.map
      (fun pats => env.matchesAnyGlob c.name pats)).getD true) = true <;>
    simp [h₁, h₂, h₃, tick]

theorem shouldSkipPackage_workspaceFailed (env : Env) (c : Scope) (r : ResolvedRule) (s : St) :
    (shouldSkipPackage env c r s).2.workspaceFailed = s.workspaceFailed := by
  unfold shouldSkipPackage
  by_cases h₁ : (!r.includeWorkspaceRoot && c.isRoot) = true <;>
    by_cases h₂ : ((r.excludePackages.map
      (fun pats => env.matchesAnyGlob c.name pats)).getD false) = true <;>
    by_cases h₃ : (!(r.includePackages.map
      (fun pats => env.matchesAnyGlob c.name pats)).getD true) = true <;>
    simp [h₁, h₂, h₃, tick]

theorem shouldSkipPackage_time_le (env : Env) (c : Scope) (r : ResolvedRule) (s : St) :
    s.time ≤ (shouldSkipPackage env c r s).2.time := by
  unfold shouldSkipPackage
  by_cases h₁ : (!r.includeWorkspaceRoot && c.isRoot) = true <;>
    by_cases h₂ : ((r.excludePackages.map
      (fun pats => env.matchesAnyGlob c.name pats)).getD false) = true <;>
    by_cases h₃ : (!(r.includePackages.map
      (fun pats => env.matchesAnyGlob c.name pats)).getD true) = true <;>
    simp [h₁, h₂, h₃, tick] <;> omega

theorem shouldSkipPackage_trace (env : Env) (c : Scope) (r : ResolvedRule) (s : St) :
    ∃ ext, (shouldSkipPackage env c r s).2.trace = s.trace ++ ext ∧ ext.all isGlob = true := by
  unfold shouldSkipPackage
  by_cases h₁ : (!r.includeWorkspaceRoot && c.isRoot) = true
  · refine ⟨[], ?_, rfl⟩
    simp [h₁]
  · by_cases h₂ : ((r.excludePackages.map
        (fun pats => env.matchesAnyGlob c.name pats)).getD false) = true
    · refine ⟨if r.excludePackages.isSome then [Event.globExclude c.name] else [], ?_, ?_⟩
      · simp [h₁, h₂, tick]
      · cases hE : r.excludePackages.isSome <;> simp [isGlob]
    · refine ⟨(if r.excludePackages.isSome then [Event.globExclude c.name] else [])
          ++ (if r.includePackages.isSome then [Event.globInclude c.name] else []), ?_, ?_⟩
      · by_cases h₃ : (!(r.includePackages.map
            (fun pats => env.matchesAnyGlob c.name pats)).getD true) = true <;>
          simp [h₁, h₂, h₃, tick, List.append_assoc]
      · cases hE : r.excludePackages.isSome <;> cases hI : r.includePackages.isSome <;>
          simp [isGlob]

/-- The bucket value written by `chargeStart`. -/
def startBucket (env : Env) (r : ResolvedRule) (s : St) : RuleStats :=
  let rn := r.name.getD unknownName
  let d := (mapGet s.perRule rn).getD (defaultStats rn)
  { name := d.name, totalTime := d.totalTime - env.clock s.time,
    executions := d.executions + 1 }

/-- The bucket value written by `bumpTotal`. -/
def endBucket (env : Env) (rn : String) (s : St) : RuleStats :=
  let d := (mapGet s.perRule rn).getD (defaultStats rn)
  { name := d.name, totalTime := d.totalTime + env.clock s.time,
    executions := d.executions }

theorem chargeStart_packagesChecked (env : Env) (r : ResolvedRule) (s : St) :
    (chargeStart env r s).packagesChecked = s.packagesChecked := rfl

theorem chargeStart_workspaceFailed (env : Env) (r : ResolvedRule) (s : St) :
    (chargeStart env r s).workspaceFailed = s.workspaceFailed := rfl

theorem chargeStart_trace (env : Env) (r : ResolvedRule) (s : St) :
    (chargeStart env r s).trace = s.trace := rfl

theorem chargeStart_time (env : Env) (r : ResolvedRule) (s : St) :
    (chargeStart env r s).time = s.time + 1 := rfl

theorem chargeStart_perRule (env : Env) (r : ResolvedRule) (s : St) :
    (chargeStart env r s).perRule
      = mapSet s.perRule (r.name.getD unknownName) (startBucket env r s) := rfl

theorem bumpTotal_packagesChecked (env : Env) (rn : String) (s : St) :
    (bumpTotal env rn s).packagesChecked = s.packagesChecked := rfl

theorem bumpTotal_workspaceFailed (env : Env) (rn : String) (s : St) :
    (bumpTotal env rn s).workspaceFailed = s.workspaceFailed := rfl

theorem bumpTotal_trace (env : Env) (rn : String) (s : St) :
    (bumpTotal env rn s).trace = s.trace := rfl

theorem bumpTotal_time (env : Env) (rn : String) (s : St) :
    (bumpTotal env rn s).time = s.time + 1 := rfl

theorem bumpTotal_perRule (env : Env) (rn : String) (s : St) :
    (bumpTotal env rn s).perRule = mapSet s.perRule rn (endBucket env rn s) := rfl

theorem glob_imp_step : ∀ e, isGlob e = true → stepEvent e = true := by
  intro e he
  cases e <;> simp [isGlob, stepEvent] at he ⊢

theorem glob_not_seq : ∀ e, isGlob e = true → isSeqEvent e = false := by
  intro e he
  cases e <;> simp [isGlob, isSeqEvent] at he ⊢

theorem bump_after_start (env : Env) (r : ResolvedRule) (s σ : St)
    (hpr : σ.perRule = mapSet s.perRule (r.name.getD unknownName) (startBucket env r s))
    (hti : s.time ≤ σ.time) :
    ∃ d, (bumpTotal env (r.name.getD unknownName) σ).perRule
        = mapSet s.perRule (r.name.getD unknownName) d ∧
      d.executions
        = ((mapGet s.perRule (r.name.getD unknownName)).map RuleStats.executions).getD 0 + 1 ∧
      (Monotone env.clock →
        ((mapGet s.perRule (r.name.getD unknownName)).map RuleStats.totalTime).getD 0
          ≤ d.totalTime) := by
  refine ⟨endBucket env (r.name.getD unknownName) σ, ?_, ?_, ?_⟩
  · rw [bumpTotal_perRule, hpr, mapSet_mapSet_self]
  · cases hg : mapGet s.perRule (r.name.getD unknownName) <;>
      simp [endBucket, hpr, mapGet_mapSet_self, startBucket, defaultStats, hg]
  · intro hmono
    have hle := hmono hti
    cases hg : mapGet s.perRule (r.name.getD unknownName) <;>
      simp [endBucket, hpr, mapGet_mapSet_self, startBucket, defaultStats, hg] <;> omega

theorem checkRuleStep_ok (env : Env) (c : Scope) (i : Nat) (r : ResolvedRule) (s : St)
    (m : Bool) (s₂ : St) (h : checkRuleStep env c i r s = Except.ok (m, s₂)) :
    s₂.packagesChecked = s.packagesChecked ∧
    s₂.workspaceFailed = s.workspaceFailed ∧
    s.time ≤ s₂.time ∧
    (∃ d, s₂.perRule = mapSet s.perRule (r.name.getD unknownName) d ∧
      d.executions
        = ((mapGet s.perRule (r.name.getD unknownName)).map RuleStats.executions).getD 0 + 1 ∧
      (Monotone env.clock →
        ((mapGet s.perRule (r.name.getD unknownName)).map RuleStats.totalTime).getD 0
          ≤ d.totalTime)) ∧
    (∃ ext, s₂.trace = s.trace ++ ext ∧ ext.all stepEvent = true ∧
      seqEvents ext = (if skipDecision env c r then []
        else [Event.checkStart c.name i, Event.checkEnd c.name i]) ∧
      (∀ sc j, Event.checkStart sc j ∈ ext → sc = c.name ∧ j = i)) := by
  have hkt := shouldSkipPackage_time_le env c r (chargeStart env r s)
  rw [chargeStart_time] at hkt
  obtain ⟨ext₀, hktr, hkg⟩ := shouldSkipPackage_trace env c r (chargeStart env r s)
  rw [chargeStart_trace] at hktr
  have hglobstart : ∀ sc j, Event.checkStart sc j ∈ ext₀ → sc = c.name ∧ j = i := by
    intro sc j hmem
    simp only [List.all_eq_true] at hkg
    have := hkg _ hmem
    simp [isGlob] at this
  simp only [checkRuleStep] at h
  rw [shouldSkipPackage_fst] at h
  by_cases hskip : skipDecision env c r = true
  · rw [if_pos hskip] at h
    rw [Except.ok.injEq, Prod.mk.injEq] at h
    obtain ⟨hm, hsb⟩ := h
    subst hm
    subst hsb
    refine ⟨?_, ?_, ?_, ?_, ?_⟩
    · rw [bumpTotal_packagesChecked, shouldSkipPackage_packagesChecked,
        chargeStart_packagesChecked]
    · rw [bumpTotal_workspaceFailed, shouldSkipPackage_workspaceFailed,
        chargeStart_workspaceFailed]
    · rw [bumpTotal_time]
      omega
    · exact bump_after_start env r s _
        (by rw [shouldSkipPackage_perRule, chargeStart_perRule]) (by omega)
    · refine ⟨ext₀, ?_, all_imp_of glob_imp_step ext₀ hkg, ?_, hglobstart⟩
      · rw [bumpTotal_trace, hktr]
      · rw [if_pos hskip]
        exact filter_nil_of_all ext₀ hkg glob_not_seq
  · rw [if_neg hskip] at h
    cases hb : r.check c.name with
    | throws =>
      rw [hb] at h
      simp at h
    | ok marks =>
      rw [hb] at h
      simp only [Except.ok.injEq, Prod.mk.injEq] at h
      obtain ⟨hm, hsb⟩ := h
      subst hm
      subst hsb
      refine ⟨?_, ?_, ?_, ?_, ?_⟩
      · rw [bumpTotal_packagesChecked]
        show ((shouldSkipPackage env c r (chargeStart env r s)).2).packagesChecked
          = s.packagesChecked
        rw [shouldSkipPackage_packagesChecked, chargeStart_packagesChecked]
      · rw [bumpTotal_workspaceFailed]
        show ((shouldSkipPackage env c r (chargeStart env r s)).2).workspaceFailed
          = s.workspaceFailed
        rw [shouldSkipPackage_workspaceFailed, chargeStart_workspaceFailed]
      · rw [bumpTotal_time]
        show s.time ≤ ((shouldSkipPackage env c r (chargeStart env r s)).2).time + 1
        omega
      · exact bump_after_start env r s _
          (by
            show ((shouldSkipPackage env c r (chargeStart env r s)).2).perRule = _
            rw [shouldSkipPackage_perRule, chargeStart_perRule])
          (by
            show s.time ≤ ((shouldSkipPackage env c r (chargeStart env r s)).2).time
            omega)
      · refine ⟨ext₀ ++ [Event.checkStart c.name i, Event.checkEnd c.name i],
          ?_, ?_, ?_, ?_⟩
        · rw [bumpTotal_trace]
          show ((shouldSkipPackage env c r (chargeStart env r s)).2).trace
              ++ [Event.checkStart c.name i] ++ [Event.checkEnd c.name i]
            = _
          rw [hktr]
          simp [List.append_assoc]
        · simp only [List.all_append, Bool.and_eq_true]
          exact ⟨all_imp_of glob_imp_step ext₀ hkg, by simp [stepEvent]⟩
        · rw [if_neg hskip]
          simp only [seqEvents, List.filter_append,
            filter_nil_of_all ext₀ hkg glob_not_seq]
          simp [isSeqEvent]
        · intro sc j hmem
          rw [List.mem_append] at hmem
          rcases hmem with hmem | hmem
          · exact hglobstart sc j hmem
          · simp [Event.checkStart.injEq] at hmem
            exact hmem

theorem checkRuleStep_throws (env : Env) (c : Scope) (i : Nat) (r : ResolvedRule) (s : St)
    (hskip : skipDecision env c r = false) (hb : r.check c.name = CheckBehavior.throws) :
    ∃ e, checkRuleStep env c i r s = Except.error e ∧
      mapGet e.perRule (r.name.getD unknownName) = some (startBucket env r s) ∧
      (∀ k, k ≠ r.name.getD unknownName → mapGet e.perRule k = mapGet s.perRule k) ∧
      e.workspaceFailed = s.workspaceFailed ∧
      ∃ ext, e.trace = s.trace ++ ext ∧ ext.all stepEvent = true ∧
        (∀ sc j, Event.checkStart sc j ∈ ext → sc = c.name ∧ j = i) := by
  obtain ⟨ext₀, hktr, hkg⟩ := shouldSkipPackage_trace env c r (chargeStart env r s)
  rw [chargeStart_trace] at hktr
  have hglobstart : ∀ sc j, Event.checkStart sc j ∈ ext₀ → sc = c.name ∧ j = i := by
    intro sc j hmem
    simp only [List.all_eq_true] at hkg
    have := hkg _ hmem
    simp [isGlob] at this
  refine ⟨{ (shouldSkipPackage env c r (chargeStart env r s)).2 with trace := ((shouldSkipPackage env c r (chargeStart env r s)).2).trace ++ [Event.checkStart c.name i] }, ?_, ?_, ?_, ?_, ?_⟩
  · simp only [checkRuleStep]
    rw [shouldSkipPackage_fst, if_neg (by simp [hskip]), hb]
  · show mapGet ((shouldSkipPackage env c r (chargeStart env r s)).2).perRule _ = _
    rw [shouldSkipPackage_perRule, chargeStart_perRule]
    exact mapGet_mapSet_self _ _ _
  · intro k hk
    show mapGet ((shouldSkipPackage env c r (chargeStart env r s)).2).perRule _ = _
    rw [shouldSkipPackage_perRule, chargeStart_perRule]
    exact mapGet_mapSet_ne _ _ _ _ hk
  · show ((shouldSkipPackage env c r (chargeStart env r s)).2).workspaceFailed = _
    rw [shouldSkipPackage_workspaceFailed, chargeStart_workspaceFailed]
  · refine ⟨ext₀ ++ [Event.checkStart c.name i], ?_, ?_, ?_⟩
    · show ((shouldSkipPackage env c r (chargeStart env r s)).2).trace
          ++ [Event.checkStart c.name i] = _
      rw [hktr]
      simp [List.append_assoc]
    · simp only [List.all_append, Bool.and_eq_true]
      exact ⟨all_imp_of glob_imp_step ext₀ hkg, by simp [stepEvent]⟩
    · intro sc j hmem
      rw [List.mem_append] at hmem
      rcases hmem with hmem | hmem
      · exact hglobstart sc j hmem
      · simp [Event.checkStart.injEq] at hmem
        exact hmem

theorem step_imp_scope : ∀ e, stepEvent e = true → scopeEvent e = true := by
  intro e he
  simp [scopeEvent, he]

theorem step_not_failedFinish : ∀ e, stepEvent e = true → isFailedFinish e = false := by
  intro e he
  cases e <;> simp [stepEvent, isFailedFinish] at he ⊢

theorem step_not_validate : ∀ e, stepEvent e = true → isValidateEv e = false := by
  intro e he
  cases e <;> simp [stepEvent, isValidateEv] at he ⊢

theorem runRulesFrom_ok (env : Env) (c : Scope) :
    ∀ (l : List ResolvedRule) (i : Nat) (f : Bool) (s : St) (f₂ : Bool) (s₂ : St),
      runRulesFrom env c i l f s = Except.ok (f₂, s₂) →
      s₂.packagesChecked = s.packagesChecked ∧ s₂.workspaceFailed = s.workspaceFailed ∧
      s.time ≤ s₂.time ∧
      ∃ ext, s₂.trace = s.trace ++ ext ∧ ext.all stepEvent = true ∧
        seqEvents ext = expectedSeq env c i l ∧
        (∀ sc j, Event.checkStart sc j ∈ ext → sc = c.name ∧ i ≤ j ∧ j < i + l.length) := by
  intro l
  induction l with
  | nil =>
    intro i f s f₂ s₂ h
    simp only [runRulesFrom] at h
    rw [Except.ok.injEq, Prod.mk.injEq] at h
    obtain ⟨hf, hs⟩ := h
    subst hs
    exact ⟨rfl, rfl, Nat.le_refl _, [], by simp, rfl, rfl, by simp⟩
  | cons r rest ih =>
    intro i f s f₂ s₂ h
    cases hstep : checkRuleStep env c i r s with
    | error e =>
      simp only [runRulesFrom, hstep] at h
      exact Except.noConfusion h
    | ok p =>
      obtain ⟨marks, s₁⟩ := p
      simp only [runRulesFrom, hstep] at h
      obtain ⟨hpc, hwf, hti, _, ext₁, htr, hall, hseq, hmem⟩ :=
        checkRuleStep_ok env c i r s marks s₁ hstep
      obtain ⟨hpc₂, hwf₂, hti₂, ext₂, htr₂, hall₂, hseq₂, hmem₂⟩ :=
        ih (i + 1) (f || marks) s₁ f₂ s₂ h
      refine ⟨by rw [hpc₂, hpc], by rw [hwf₂, hwf], le_trans hti hti₂,
        ext₁ ++ ext₂, ?_, ?_, ?_, ?_⟩
      · rw [htr₂, htr, List.append_assoc]
      · simp [List.all_append, hall, hall₂]
      · show (ext₁ ++ ext₂).filter isSeqEvent = _
        rw [List.filter_append]
        show seqEvents ext₁ ++ seqEvents ext₂ = _
        rw [hseq, hseq₂]
        simp only [expectedSeq]
      · intro sc j hm
        rw [List.mem_append] at hm
        rcases hm with hm | hm
        · obtain ⟨h1, h2⟩ := hmem sc j hm
          refine ⟨h1, by omega, ?_⟩
          simp only [List.length_cons]
          omega
        · obtain ⟨h1, h2, h3⟩ := hmem₂ sc j hm
          refine ⟨h1, by omega, ?_⟩
          simp only [List.length_cons]
          omega

theorem runRulesFrom_ok_sum (env : Env) (c : Scope) :
    ∀ (l : List ResolvedRule) (i : Nat) (f : Bool) (s : St) (f₂ : Bool) (s₂ : St),
      runRulesFrom env c i l f s = Except.ok (f₂, s₂) →
      sumExecutions s₂.perRule = sumExecutions s.perRule + l.length := by
  intro l
  induction l with
  | nil =>
    intro i f s f₂ s₂ h
    simp only [runRulesFrom] at h
    rw [Except.ok.injEq, Prod.mk.injEq] at h
    obtain ⟨hf, hs⟩ := h
    subst hs
    simp
  | cons r rest ih =>
    intro i f s f₂ s₂ h
    cases hstep : checkRuleStep env c i r s with
    | error e =>
      simp only [runRulesFrom, hstep] at h
      exact Except.noConfusion h
    | ok p =>
      obtain ⟨marks, s₁⟩ := p
      simp only [runRulesFrom, hstep] at h
      obtain ⟨_, _, _, ⟨d, hdpr, hdexec, _⟩, _⟩ := checkRuleStep_ok env c i r s marks s₁ hstep
      have hsum := sumExecutions_mapSet s.perRule (r.name.getD unknownName) d
      have hrec := ih (i + 1) (f || marks) s₁ f₂ s₂ h
      rw [hrec, hdpr]
      simp only [List.length_cons]
      omega

theorem runRulesFrom_ok_keys (env : Env) (c : Scope) :
    ∀ (l : List ResolvedRule) (i : Nat) (f : Bool) (s : St) (f₂ : Bool) (s₂ : St),
      runRulesFrom env c i l f s = Except.ok (f₂, s₂) →
      ((mapKeys s.perRule).Nodup → (mapKeys s₂.perRule).Nodup) ∧
      (∀ k ∈ mapKeys s₂.perRule, k ∈ mapKeys s.perRule ∨ k ∈ effNames l) := by
  intro l
  induction l with
  | nil =>
    intro i f s f₂ s₂ h
    simp only [runRulesFrom] at h
    rw [Except.ok.injEq, Prod.mk.injEq] at h
    obtain ⟨hf, hs⟩ := h
    subst hs
    exact ⟨fun hh => hh, fun k hk => Or.inl hk⟩
  | cons r rest ih =>
    intro i f s f₂ s₂ h
    cases hstep : checkRuleStep env c i r s with
    | error e =>
      simp only [runRulesFrom, hstep] at h
      exact Except.noConfusion h
    | ok p =>
      obtain ⟨marks, s₁⟩ := p
      simp only [runRulesFrom, hstep] at h
      obtain ⟨_, _, _, ⟨d, hdpr, _, _⟩, _⟩ := checkRuleStep_ok env c i r s marks s₁ hstep
      obtain ⟨hnd, hsub⟩ := ih (i + 1) (f || marks) s₁ f₂ s₂ h
      constructor
      · intro hnodup
        refine hnd ?_
        rw [hdpr]
        exact nodup_mapKeys_mapSet _ _ _ hnodup
      · intro k hk
        rcases hsub k hk with hk₁ | hk₁
        · rw [hdpr] at hk₁
          rcases mapKeys_mapSet _ _ _ k hk₁ with hk₂ | hk₂
          · refine Or.inr ?_
            simp [effNames, hk₂]
          · exact Or.inl hk₂
        · refine Or.inr ?_
          simp only [effNames, List.map_cons, List.mem_cons]
          exact Or.inr (by simpa [effNames] using hk₁)

theorem any_false_of_all {p q : Event → Bool} (l : List Event)
    (hl : l.all p = true) (hpq : ∀ e, p e = true → q e = false) : l.any q = false := by
  simp only [List.any_eq_false]
  intro e he
  simp only [List.all_eq_true] at hl
  simp [hpq e (hl e he)]

theorem checkPackage_ok (env : Env) (c : Scope) (rules : List ResolvedRule) (s s₂ : St)
    (h : checkPackage env c rules s = Except.ok s₂) :
    s₂.packagesChecked = s.packagesChecked ∧
    sumExecutions s₂.perRule = sumExecutions s.perRule + rules.length ∧
    ((mapKeys s.perRule).Nodup → (mapKeys s₂.perRule).Nodup) ∧
    (∀ k ∈ mapKeys s₂.perRule, k ∈ mapKeys s.perRule ∨ k ∈ effNames rules) ∧
    ∃ f ext, s₂.workspaceFailed = (s.workspaceFailed || f) ∧
      s₂.trace = s.trace ++ ext ++ [Event.finish c.name f] ∧
      ext.all stepEvent = true ∧
      seqEvents ext = expectedSeq env c 0 rules := by
  cases hrun : runRulesFrom env c 0 rules false s with
  | error e =>
    simp only [checkPackage, hrun] at h
    exact Except.noConfusion h
  | ok p =>
    obtain ⟨f₁, s₁⟩ := p
    simp only [checkPackage, hrun] at h
    rw [Except.ok.injEq] at h
    subst h
    obtain ⟨hpc, hwf, _, ext, htr, hall, hseq, _⟩ :=
      runRulesFrom_ok env c rules 0 false s f₁ s₁ hrun
    have hsum := runRulesFrom_ok_sum env c rules 0 false s f₁ s₁ hrun
    obtain ⟨hnd, hsub⟩ := runRulesFrom_ok_keys env c rules 0 false s f₁ s₁ hrun
    refine ⟨hpc, hsum, hnd, hsub, f₁, ext, ?_, ?_, hall, hseq⟩
    · show (s₁.workspaceFailed || f₁) = _
      rw [hwf]
    · show s₁.trace ++ [Event.finish c.name f₁] = _
      rw [htr]

theorem checkScopes_ok (env : Env) (rules : List ResolvedRule) :
    ∀ (scopes : List Scope) (s s₂ : St), checkScopes env rules scopes s = Except.ok s₂ →
      s₂.packagesChecked = s.packagesChecked + scopes.length ∧
      sumExecutions s₂.perRule = sumExecutions s.perRule + scopes.length * rules.length ∧
      ((mapKeys s.perRule).Nodup → (mapKeys s₂.perRule).Nodup) ∧
      (∀ k ∈ mapKeys s₂.perRule, k ∈ mapKeys s.perRule ∨ k ∈ effNames rules) ∧
      ∃ ext, s₂.trace = s.trace ++ ext ∧ ext.all scopeEvent = true ∧
        s₂.workspaceFailed = (s.workspaceFailed || anyScopeFailed ext) := by
  intro scopes
  induction scopes with
  | nil =>
    intro s s₂ h
    simp only [checkScopes] at h
    rw [Except.ok.injEq] at h
    subst h
    exact ⟨by simp, by simp, fun hh => hh, fun k hk => Or.inl hk,
      [], by simp, rfl, by simp [anyScopeFailed]⟩
  | cons sc scs ih =>
    intro s s₂ h
    cases hpkg : checkPackage env sc rules
        { s with packagesChecked := s.packagesChecked + 1 } with
    | error e =>
      simp only [checkScopes, hpkg] at h
      exact Except.noConfusion h
    | ok s₁ =>
      simp only [checkScopes, hpkg] at h
      obtain ⟨hpc, hsum, hnd, hsub, f, ext₁, hwf, htr, hall, hseq⟩ :=
        checkPackage_ok env sc rules _ s₁ hpkg
      obtain ⟨hpc₂, hsum₂, hnd₂, hsub₂, ext₂, htr₂, hall₂, hwf₂⟩ := ih s₁ s₂ h
      have hanyext₁ : ext₁.any isFailedFinish = false :=
        any_false_of_all ext₁ hall step_not_failedFinish
      refine ⟨?_, ?_, ?_, ?_, ext₁ ++ [Event.finish sc.name f] ++ ext₂, ?_, ?_, ?_⟩
      · rw [hpc₂, hpc]
        show s.packagesChecked + 1 + scs.length = _
        simp only [List.length_cons]
        omega
      · rw [hsum₂, hsum]
        show sumExecutions s.perRule + rules.length + scs.length * rules.length = _
        simp only [List.length_cons, Nat.succ_mul]
        omega
      · intro hnodup
        exact hnd₂ (hnd hnodup)
      · intro k hk
        rcases hsub₂ k hk with hk₁ | hk₁
        · exact hsub k hk₁
        · exact Or.inr hk₁
      · rw [htr₂, htr]
        show s.trace ++ ext₁ ++ [Event.finish sc.name f] ++ ext₂ = _
        simp [List.append_assoc]
      · simp only [List.all_append, Bool.and_eq_true]
        refine ⟨⟨all_imp_of step_imp_scope ext₁ hall, ?_⟩, hall₂⟩
        simp [scopeEvent, stepEvent, isFinishEv]
      · rw [hwf₂, hwf]
        show (s.workspaceFailed || f || anyScopeFailed ext₂) = _
        simp only [anyScopeFailed, List.any_append, hanyext₁]
        cases f <;> simp [isFailedFinish, List.any_cons]

theorem validateRules_ok :
    ∀ (l : List ResolvedRule) (i : Nat) (s s₂ : St),
      validateRules i l s = Except.ok s₂ →
      (∀ r ∈ l, r.optionsValid = true) ∧
      s₂ = { s with trace := s.trace ++ (List.range' i l.length).map Event.validate } := by
  intro l
  induction l with
  | nil =>
    intro i s s₂ h
    simp only [validateRules] at h
    rw [Except.ok.injEq] at h
    subst h
    exact ⟨by simp, by simp [List.range'_zero]⟩
  | cons r rest ih =>
    intro i s s₂ h
    simp only [validateRules] at h
    cases hv : r.optionsValid with
    | false =>
      rw [hv] at h
      simp at h
    | true =>
      rw [hv] at h
      simp only [if_true] at h
      obtain ⟨hvs, hst⟩ := ih (i + 1)
        { s with trace := s.trace ++ [Event.validate i] } s₂ h
      constructor
      · intro r₂ hr₂
        rcases List.mem_cons.mp hr₂ with hr₂ | hr₂
        · rw [hr₂]
          exact hv
        · exact hvs r₂ hr₂
      · rw [hst]
        simp only [List.length_cons]
        rw [show List.range' i (rest.length + 1) = i :: List.range' (i + 1) rest.length from
          List.range'_succ i rest.length 1 ▸ rfl]
        simp [List.append_assoc]

theorem validateRules_err :
    ∀ (l : List ResolvedRule) (i : Nat) (s : St),
      (∃ r ∈ l, r.optionsValid = false) →
      ∃ e, validateRules i l s = Except.error e ∧
        e.perRule = s.perRule ∧ e.packagesChecked = s.packagesChecked ∧
        e.workspaceFailed = s.workspaceFailed ∧
        ∃ ext, e.trace = s.trace ++ ext ∧ ext.all isValidateEv = true := by
  intro l
  induction l with
  | nil =>
    intro i s h
    obtain ⟨r, hr, _⟩ := h
    exact absurd hr (List.not_mem_nil r)
  | cons r rest ih =>
    intro i s h
    cases hv : r.optionsValid with
    | false =>
      refine ⟨{ s with trace := s.trace ++ [Event.validate i] }, ?_, rfl, rfl, rfl,
        [Event.validate i], rfl, by simp [isValidateEv]⟩
      simp only [validateRules, hv]
      rfl
    | true =>
      have hrest : ∃ r₂ ∈ rest, r₂.optionsValid = false := by
        obtain ⟨r₂, hr₂, hbad⟩ := h
        rcases List.mem_cons.mp hr₂ with he | he
        · rw [he, hv] at hbad
          exact absurd hbad (by simp)
        · exact ⟨r₂, he, hbad⟩
      obtain ⟨e, heq, hpr, hpc, hwf, ext, htr, hve⟩ :=
        ih (i + 1) { s with trace := s.trace ++ [Event.validate i] } hrest
      refine ⟨e, ?_, hpr, hpc, hwf, [Event.validate i] ++ ext, ?_, ?_⟩
      · simp only [validateRules, hv, if_true]
        exact heq
      · rw [htr]
        simp [List.append_assoc]
      · simp only [List.all_append, Bool.and_eq_true]
        exact ⟨by simp [isValidateEv], hve⟩

theorem runPrintStats_state :
    ∀ (l : List ResolvedRule) (seen : List Nat) (s : St),
      ∃ ext, runPrintStats l seen s = { s with trace := s.trace ++ ext } ∧
        ext.all isPrintEv = true := by
  intro l
  induction l with
  | nil =>
    intro seen s
    exact ⟨[], by simp [runPrintStats], rfl⟩
  | cons r rest ih =>
    intro seen s
    cases hpt : r.printStats with
    | none =>
      obtain ⟨ext, heq, hall⟩ := ih seen s
      exact ⟨ext, by simp only [runPrintStats, hpt]; exact heq, hall⟩
    | some g =>
      by_cases hg : g ∈ seen
      · obtain ⟨ext, heq, hall⟩ := ih seen s
        refine ⟨ext, ?_, hall⟩
        simp only [runPrintStats, hpt, if_pos hg]
        exact heq
      · obtain ⟨ext, heq, hall⟩ :=
          ih (g :: seen) { s with trace := s.trace ++ [Event.printStats g] }
        refine ⟨[Event.printStats g] ++ ext, ?_, ?_⟩
        · simp only [runPrintStats, hpt, if_neg hg]
          rw [heq]
          simp [List.append_assoc]
        · simp only [List.all_append, Bool.and_eq_true]
          exact ⟨by simp [isPrintEv], hall⟩

theorem runPrintStats_count :
    ∀ (l : List ResolvedRule) (seen : List Nat) (s : St) (fid : Nat),
      List.count (Event.printStats fid) (runPrintStats l seen s).trace
        = List.count (Event.printStats fid) s.trace
          + (if fid ∈ l.filterMap ResolvedRule.printStats ∧ fid ∉ seen then 1 else 0) := by
  intro l
  induction l with
  | nil =>
    intro seen s fid
    simp [runPrintStats, List.filterMap]
  | cons r rest ih =>
    intro seen s fid
    cases hpt : r.printStats with
    | none =>
      simp only [runPrintStats, hpt, List.filterMap_cons, ih]
    | some g =>
      by_cases hg : g ∈ seen
      · simp only [runPrintStats, hpt, if_pos hg, ih, List.filterMap_cons]
        by_cases hf : fid = g
        · subst hf
          simp [hg]
        · simp [hf]
      · simp only [runPrintStats, hpt, if_neg hg, ih, List.filterMap_cons]
        by_cases hf : fid = g
        · subst hf
          simp only [List.count_append, List.mem_cons, true_or, true_and, hg]
          simp [List.count_singleton, hg]
        · simp only [List.count_append]
          have hcnt : List.count (Event.printStats fid) [Event.printStats g] = 0 := by
            simp [List.count_singleton, hf]
          rw [hcnt]
          have hiff : (fid ∈ g :: rest.filterMap ResolvedRule.printStats ∧ fid ∉ seen)
              ↔ (fid ∈ rest.filterMap ResolvedRule.printStats ∧ fid ∉ g :: seen) := by
            constructor
            · rintro ⟨hm, hns⟩
              rcases List.mem_cons.mp hm with he | he
              · exact absurd he hf
              · exact ⟨he, by simp [hf, hns]⟩
            · rintro ⟨hm, hns⟩
              refine ⟨List.mem_cons.mpr (Or.inr hm), fun hmem => hns (by simp [hmem])⟩
          by_cases hcond : fid ∈ rest.filterMap ResolvedRule.printStats ∧ fid ∉ g :: seen
          · rw [if_pos hcond, if_pos (hiff.mpr hcond)]
          · rw [if_neg hcond, if_neg (fun hc => hcond (hiff.mp hc))]

theorem check_ok_decomp (env : Env) (cfg : ResolvedConfig) (cwd : String)
    (paths : Option (List String)) (rep : Bool) (b : Bool) (s₂ : St)
    (h : check env cfg cwd paths rep = Except.ok (b, s₂)) :
    ∃ wd s₁ s₃, env.findWorkspaceDir cwd = some wd ∧
      validateRules 0 cfg.rules (tick (tick initSt)) = Except.ok s₁ ∧
      checkScopes env cfg.rules (targetScopes env wd cwd paths) (tick s₁) = Except.ok s₃ ∧
      s₂ = (if rep then runPrintStats cfg.rules [] (tick s₃) else tick s₃) ∧
      b = !s₂.workspaceFailed := by
  simp only [check] at h
  cases hwd : env.findWorkspaceDir cwd with
  | none =>
    rw [hwd] at h
    exact Except.noConfusion h
  | some wd =>
    rw [hwd] at h
    simp only [] at h
    cases hval : validateRules 0 cfg.rules (tick (tick initSt)) with
    | error e =>
      simp only [hval] at h
      exact Except.noConfusion h
    | ok s₁ =>
      simp only [hval] at h
      cases hsc : checkScopes env cfg.rules (targetScopes env wd cwd paths) (tick s₁) with
      | error e =>
        simp only [hsc] at h
        exact Except.noConfusion h
      | ok s₃ =>
        simp only [hsc] at h
        rw [Except.ok.injEq, Prod.mk.injEq] at h
        obtain ⟨hb, hs⟩ := h
        refine ⟨wd, s₁, s₃, rfl, rfl, hsc, hs.symm, ?_⟩
        rw [← hs, ← hb]

theorem countP_zero_of_all {p q : Event → Bool} (l : List Event)
    (hl : l.all p = true) (hpq : ∀ e, p e = true → q e = false) : l.countP q = 0 := by
  rw [List.countP_eq_zero]
  intro e he
  simp only [List.all_eq_true] at hl
  simp [hpq e (hl e he)]

theorem count_zero_of_all {p : Event → Bool} (l : List Event) (ev : Event)
    (hl : l.all p = true) (hev : p ev = false) : List.count ev l = 0 := by
  rw [List.count_eq_zero]
  intro hmem
  simp only [List.all_eq_true] at hl
  rw [hl ev hmem] at hev
  cases hev

theorem step_not_finish : ∀ e, stepEvent e = true → isFinishEv e = false := by
  intro e he
  cases e <;> simp [stepEvent, isFinishEv] at he ⊢

theorem validate_not_failedFinish : ∀ e, isValidateEv e = true → isFailedFinish e = false := by
  intro e he
  cases e <;> simp [isValidateEv, isFailedFinish] at he ⊢

theorem print_not_failedFinish : ∀ e, isPrintEv e = true → isFailedFinish e = false := by
  intro e he
  cases e <;> simp [isPrintEv, isFailedFinish] at he ⊢

theorem scope_not_validate : ∀ e, scopeEvent e = true → isValidateEv e = false := by
  intro e he
  cases e <;> simp [scopeEvent, stepEvent, isFinishEv, isValidateEv] at he ⊢

theorem print_not_validate : ∀ e, isPrintEv e = true → isValidateEv e = false := by
  intro e he
  cases e <;> simp [isPrintEv, isValidateEv] at he ⊢

theorem scope_not_print : ∀ e, scopeEvent e = true → isPrintEv e = false := by
  intro e he
  cases e <;> simp [scopeEvent, stepEvent, isFinishEv, isPrintEv] at he ⊢

theorem validate_not_print : ∀ e, isValidateEv e = true → isPrintEv e = false := by
  intro e he
  cases e <;> simp [isValidateEv, isPrintEv] at he ⊢

theorem runRulesFrom_append (env : Env) (c : Scope) :
    ∀ (l₁ l₂ : List ResolvedRule) (i : Nat) (f : Bool) (s : St),
      runRulesFrom env c i (l₁ ++ l₂) f s
        = (match runRulesFrom env c i l₁ f s with
           | Except.error e => Except.error e
           | Except.ok (f₁, s₁) => runRulesFrom env c (i + l₁.length) l₂ f₁ s₁) := by
  intro l₁
  induction l₁ with
  | nil =>
    intro l₂ i f s
    simp [runRulesFrom]
  | cons r rest ih =>
    intro l₂ i f s
    show runRulesFrom env c i (r :: (rest ++ l₂)) f s = _
    cases hstep : checkRuleStep env c i r s with
    | error e =>
      simp only [runRulesFrom, hstep]
    | ok p =>
      obtain ⟨marks, s₁⟩ := p
      simp only [runRulesFrom, hstep, ih]
      have hlen : i + 1 + rest.length = i + (rest.length + 1) := by omega
      simp only [List.length_cons, hlen]

/-! Concrete fixtures used to exercise the engine on explicit inputs. -/

def rootDir : String := "/ws"

def pkgXDir : String := "/ws/pkgX"

def pkgYDir : String := "/ws/pkgY"

def pkgXFile : String := "/ws/pkgX/package.json"

def ruleAName : String := "ruleA"

def ruleBName : String := "ruleB"

def ruleThrowName : String := "ruleThrow"

/-- A concrete environment: identity-like clock, glob matching by exact
membership, a workspace rooted at `rootDir` with two packages. -/
def envW : Env :=
  { clock := fun n => Int.ofNat n,
    matchesAnyGlob := fun n pats => pats.contains n,
    findWorkspaceDir := fun _ => some rootDir,
    packageDirs := [pkgXDir, pkgYDir],
    resolveDir := fun p => if p = pkgXFile then pkgXDir else p }

/-- Rule excluded from the workspace root; marks the scope failed when
`fa` is true. -/
def ruleA (fa : Bool) : ResolvedRule :=
  { id := 0, name := some ruleAName, includeWorkspaceRoot := false,
    includePackages := none, excludePackages := none, optionsValid := true,
    printStats := none, check := fun _ => CheckBehavior.ok fa }

/-- Rule applying everywhere, including the workspace root. -/
def ruleB (fb : Bool) : ResolvedRule :=
  { id := 1, name := some ruleBName, includeWorkspaceRoot := true,
    includePackages := none, excludePackages := none, optionsValid := true,
    printStats := none, check := fun _ => CheckBehavior.ok fb }

/-- The two-rule config of the explicit-paths scenario. -/
def cfgW (fa fb : Bool) : ResolvedConfig :=
  { rules := [ruleA fa, ruleB fb], verbose := false }

/-- A rule with an exclude list naming pkgX and an include list matching
nothing. -/
def ruleEx : ResolvedRule :=
  { id := 2, name := some ruleAName, includeWorkspaceRoot := true,
    includePackages := some [], excludePackages := some [pkgXDir], optionsValid := true,
    printStats := none, check := fun _ => CheckBehavior.ok false }

/-- A rule whose check operation rejects. -/
def ruleThrow : ResolvedRule :=
  { id := 3, name := some ruleThrowName, includeWorkspaceRoot := true,
    includePackages := none, excludePackages := none, optionsValid := true,
    printStats := none, check := fun _ => CheckBehavior.throws }

/-- A rule whose options fail validation. -/
def ruleBad : ResolvedRule :=
  { id := 4, name := some ruleBName, includeWorkspaceRoot := true,
    includePackages := none, excludePackages := none, optionsValid := false,
    printStats := none, check := fun _ => CheckBehavior.ok false }

/-- Two rules sharing the identical printStats reference (id 7). -/
def ruleP1 : ResolvedRule :=
  { id := 5, name := some ruleAName, includeWorkspaceRoot := true,
    includePackages := none, excludePackages := none, optionsValid := true,
    printStats := some 7, check := fun _ => CheckBehavior.ok false }

def ruleP2 : ResolvedRule :=
  { id := 6, name := some ruleBName, includeWorkspaceRoot := true,
    includePackages := none, excludePackages := none, optionsValid := true,
    printStats := some 7, check := fun _ => CheckBehavior.ok false }

def cfgP : ResolvedConfig := { rules := [ruleP1, ruleP2], verbose := false }

def cfgBad : ResolvedConfig := { rules := [ruleA false, ruleBad], verbose := false }

/-- The pkgX scope as a child context. -/
def scopeX : Scope := { name := pkgXDir, isRoot := false }

/-- The workspace-root scope. -/
def scopeRoot : Scope := { name := rootDir, isRoot := true }

/-! The claims. -/

/-- C5: for every rule with `includeWorkspaceRoot` falsy and for the
workspace-root scope, `shouldSkipPackage` returns true via the
short-circuit, and no glob matching is evaluated: the returned state is
the input state unchanged — in particular the `includesCost` and
`excludesCost` counters and the glob-evaluation trace are untouched. -/
theorem claim5_root_short_circuit (env : Env) (c : Scope) (r : ResolvedRule) (s : St)
    (h₁ : r.includeWorkspaceRoot = false) (h₂ : c.isRoot = true) :
    (shouldSkipPackage env c r s).1 = true ∧
    (shouldSkipPackage env c r s).2.includesCost = s.includesCost ∧
    (shouldSkipPackage env c r s).2.excludesCost = s.excludesCost ∧
    (shouldSkipPackage env c r s).2 = s := by
  refine ⟨?_, ?_, ?_, ?_⟩ <;> simp [shouldSkipPackage, h₁, h₂]

theorem claim5_witness :
    (ruleA false).includeWorkspaceRoot = false ∧ scopeRoot.isRoot = true ∧
    ((shouldSkipPackage envW scopeRoot (ruleA false) initSt).1 = true ∧
      (shouldSkipPackage envW scopeRoot (ruleA false) initSt).2.includesCost
        = initSt.includesCost ∧
      (shouldSkipPackage envW scopeRoot (ruleA false) initSt).2.excludesCost
        = initSt.excludesCost ∧
      (shouldSkipPackage envW scopeRoot (ruleA false) initSt).2 = initSt) :=
  ⟨rfl, rfl, claim5_root_short_circuit envW scopeRoot (ruleA false) initSt rfl rfl⟩

/-- C6: whenever a rule's `excludePackages` list is defined and matches
the scope's name, `shouldSkipPackage` returns true regardless of the
rule's `includePackages` list, and — because the exclude step is
evaluated before the include step — the include glob is never consulted:
the count of include-glob evaluation events in the trace is unchanged. -/
theorem claim6_exclude_wins (env : Env) (c : Scope) (r : ResolvedRule)
    (s : St) (pats : List String)
    (hex : r.excludePackages = some pats)
    (hm : env.matchesAnyGlob c.name pats = true) :
    (shouldSkipPackage env c r s).1 = true ∧
    (shouldSkipPackage env c r s).2.trace.countP isGlobInclude
      = s.trace.countP isGlobInclude := by
  constructor
  · rw [shouldSkipPackage_fst]
    by_cases h₁ : (!r.includeWorkspaceRoot && c.isRoot) = true <;>
      simp [skipDecision, h₁, hex, hm]
  · unfold shouldSkipPackage
    by_cases h₁ : (!r.includeWorkspaceRoot && c.isRoot) = true
    · simp [h₁]
    · simp [h₁, hex, hm, tick, List.countP_append, isGlobInclude]

theorem claim6_witness :
    ruleEx.excludePackages = some [pkgXDir] ∧
    envW.matchesAnyGlob scopeX.name [pkgXDir] = true ∧
    ((shouldSkipPackage envW scopeX ruleEx initSt).1 = true ∧
      (shouldSkipPackage envW scopeX ruleEx initSt).2.trace.countP isGlobInclude
        = initSt.trace.countP isGlobInclude) :=
  ⟨rfl, by decide,
    claim6_exclude_wins envW scopeX ruleEx initSt [pkgXDir] rfl (by decide)⟩

/-- C3: within one scope the rules execute strictly sequentially in
declared config order: the scheduling sub-trace appended by a completed
`checkPackage` is exactly — for each rule index in config order — a
checkStart immediately followed by its matching checkEnd when the rule
is not skipped (so no two checks overlap and each completes before the
next starts), followed by exactly one finish event after all rules. -/
theorem claim3_sequential_execution (env : Env) (c : Scope) (rules : List ResolvedRule)
    (s s₂ : St) (h : checkPackage env c rules s = Except.ok s₂) :
    ∃ f, seqEvents s₂.trace
      = seqEvents s.trace ++ expectedSeq env c 0 rules ++ [Event.finish c.name f] := by
  obtain ⟨_, _, _, _, f, ext, _, htr, hall, hseq⟩ := checkPackage_ok env c rules s s₂ h
  refine ⟨f, ?_⟩
  rw [htr]
  show ((s.trace ++ ext) ++ [Event.finish c.name f]).filter isSeqEvent = _
  rw [List.filter_append, List.filter_append]
  show seqEvents s.trace ++ seqEvents ext ++ seqEvents [Event.finish c.name f] = _
  rw [hseq]
  simp [seqEvents, isSeqEvent]

theorem claim3_witness :
    ∃ f, seqEvents (stStateOf (checkPackage envW scopeX [ruleA false, ruleB true] initSt)).trace
      = seqEvents initSt.trace ++ expectedSeq envW scopeX 0 [ruleA false, ruleB true]
        ++ [Event.finish scopeX.name f] :=
  claim3_sequential_execution envW scopeX [ruleA false, ruleB true] initSt
    (stStateOf (checkPackage envW scopeX [ruleA false, ruleB true] initSt)) rfl

/-- C9: a stats bucket's totalTime never decreases across one rule
iteration, even a skipped one: under a monotone clock, every bucket's
totalTime after a completed `checkRuleStep` is at least its value before
(the bucket is decremented by the start timestamp and incremented by the
later end timestamp). -/
theorem claim9_totalTime_monotone (env : Env) (c : Scope) (i : Nat) (r : ResolvedRule)
    (s : St) (m : Bool) (s₂ : St) (hmono : Monotone env.clock)
    (h : checkRuleStep env c i r s = Except.ok (m, s₂)) (k : String) :
    totalTimeOf s k ≤ totalTimeOf s₂ k := by
  obtain ⟨_, _, _, ⟨d, hdpr, _, hdt⟩, _⟩ := checkRuleStep_ok env c i r s m s₂ h
  by_cases hk : k = r.name.getD unknownName
  · subst hk
    unfold totalTimeOf
    rw [hdpr, mapGet_mapSet_self]
    simpa using hdt hmono
  · unfold totalTimeOf
    rw [hdpr, mapGet_mapSet_ne _ _ _ _ hk]

theorem claim9_witness :
    totalTimeOf initSt ruleAName
      ≤ totalTimeOf (runStateOf (checkRuleStep envW scopeX 0 (ruleA false) initSt)) ruleAName :=
  claim9_totalTime_monotone envW scopeX 0 (ruleA false) initSt false
    (runStateOf (checkRuleStep envW scopeX 0 (ruleA false) initSt))
    (fun _ _ hab => Int.ofNat_le.mpr hab) rfl ruleAName

/-- C10: when a rule's check operation throws while a scope is being
checked (after the earlier rules completed normally), `checkPackage`
propagates the exception: the scope's finish is never recorded, no later
rule of the scope is started, and the throwing rule's bucket is left with
`executions` incremented and `totalTime` decremented by the start
timestamp (the clock value at the iteration's start state), never
re-incremented. -/
theorem claim10_throw_aborts_scope (env : Env) (c : Scope)
    (pre rest : List ResolvedRule) (r : ResolvedRule) (s : St) (f₁ : Bool) (s₁ : St)
    (hpre : runRulesFrom env c 0 pre false s = Except.ok (f₁, s₁))
    (hskip : skipDecision env c r = false)
    (hthrow : r.check c.name = CheckBehavior.throws) :
    ∃ e, checkPackage env c (pre ++ r :: rest) s = Except.error e ∧
      mapGet e.perRule (r.name.getD unknownName) = some (startBucket env r s₁) ∧
      e.trace.countP isFinishEv = s.trace.countP isFinishEv ∧
      (∀ j, pre.length < j →
        List.count (Event.checkStart c.name j) e.trace
          = List.count (Event.checkStart c.name j) s.trace) := by
  obtain ⟨e, hstep, hbucket, _, _, ext₂, htre, hall₂, hstart₂⟩ :=
    checkRuleStep_throws env c pre.length r s₁ hskip hthrow
  obtain ⟨_, _, _, ext₁, htr₁, hall₁, _, hmem₁⟩ :=
    runRulesFrom_ok env c pre 0 false s f₁ s₁ hpre
  refine ⟨e, ?_, hbucket, ?_, ?_⟩
  · unfold checkPackage
    rw [runRulesFrom_append, hpre]
    show (match runRulesFrom env c (0 + pre.length) (r :: rest) f₁ s₁ with
      | Except.error e => Except.error e
      | Except.ok (failed, s₃) =>
        Except.ok { s₃ with workspaceFailed := s₃.workspaceFailed || failed,
                            trace := s₃.trace ++ [Event.finish c.name failed] }) = _
    rw [Nat.zero_add]
    simp only [runRulesFrom, hstep]
  · rw [htre, htr₁, List.countP_append, List.countP_append,
      countP_zero_of_all ext₁ hall₁ step_not_finish,
      countP_zero_of_all ext₂ hall₂ step_not_finish]
    omega
  · intro j hj
    rw [htre, htr₁, List.count_append, List.count_append]
    have h₁ : List.count (Event.checkStart c.name j) ext₁ = 0 := by
      rw [List.count_eq_zero]
      intro hmem
      obtain ⟨_, _, hlt⟩ := hmem₁ c.name j hmem
      omega
    have h₂ : List.count (Event.checkStart c.name j) ext₂ = 0 := by
      rw [List.count_eq_zero]
      intro hmem
      obtain ⟨_, hje⟩ := hstart₂ c.name j hmem
      omega
    omega

theorem claim10_witness :
    ∃ e, checkPackage envW scopeX ([] ++ ruleThrow :: [ruleB false]) initSt
        = Except.error e ∧
      mapGet e.perRule (ruleThrow.name.getD unknownName)
        = some (startBucket envW ruleThrow initSt) ∧
      e.trace.countP isFinishEv = initSt.trace.countP isFinishEv ∧
      (∀ j, ([] : List ResolvedRule).length < j →
        List.count (Event.checkStart scopeX.name j) e.trace
          = List.count (Event.checkStart scopeX.name j) initSt.trace) :=
  claim10_throw_aborts_scope envW scopeX [] [ruleB false] ruleThrow initSt false initSt
    rfl (by decide) rfl

/-- C1: a completed run's boolean is the negation of the workspace
context's aggregate failed flag, and it is true exactly when no checked
scope was sealed as failed. -/
theorem claim1_check_returns_no_failure (env : Env) (cfg : ResolvedConfig) (cwd : String)
    (paths : Option (List String)) (rep : Bool) (b : Bool) (s₂ : St)
    (h : check env cfg cwd paths rep = Except.ok (b, s₂)) :
    b = !s₂.workspaceFailed ∧ (b = true ↔ anyScopeFailed s₂.trace = false) := by
  obtain ⟨wd, s₁, s₃, hwd, hval, hsc, hs₂, hb⟩ := check_ok_decomp env cfg cwd paths rep b s₂ h
  obtain ⟨hvr, hs₁⟩ := validateRules_ok cfg.rules 0 (tick (tick initSt)) s₁ hval
  obtain ⟨_, _, _, _, ext₂, htr₂, hall₂, hwf₂⟩ :=
    checkScopes_ok env cfg.rules (targetScopes env wd cwd paths) (tick s₁) s₃ hsc
  have hwf₁ : s₁.workspaceFailed = false := by simp [hs₁, tick, initSt]
  have htr₁ : s₁.trace = (List.range cfg.rules.length).map Event.validate := by
    rw [hs₁, List.range_eq_range' cfg.rules.length]
    simp [tick, initSt]
  have htrv : s₁.trace.all isValidateEv = true := by
    rw [htr₁]
    simp [List.all_eq_true, isValidateEv]
  have hwf₃ : s₃.workspaceFailed = anyScopeFailed ext₂ := by
    rw [hwf₂]
    show (s₁.workspaceFailed || anyScopeFailed ext₂) = _
    rw [hwf₁]
    simp
  have hany₃ : anyScopeFailed s₃.trace = anyScopeFailed ext₂ := by
    rw [htr₂]
    show anyScopeFailed (s₁.trace ++ ext₂) = _
    unfold anyScopeFailed
    rw [List.any_append, any_false_of_all s₁.trace htrv validate_not_failedFinish]
    simp
  have hs₂pair : s₂.workspaceFailed = s₃.workspaceFailed ∧
      anyScopeFailed s₂.trace = anyScopeFailed s₃.trace := by
    cases rep with
    | false =>
      simp only [Bool.false_eq_true, if_false] at hs₂
      rw [hs₂]
      exact ⟨rfl, rfl⟩
    | true =>
      simp only [if_true] at hs₂
      obtain ⟨extP, heqP, hallP⟩ := runPrintStats_state cfg.rules [] (tick s₃)
      rw [hs₂, heqP]
      refine ⟨rfl, ?_⟩
      show anyScopeFailed (s₃.trace ++ extP) = _
      unfold anyScopeFailed
      rw [List.any_append, any_false_of_all extP hallP print_not_failedFinish]
      simp
  have hfinal : s₂.workspaceFailed = anyScopeFailed s₂.trace := by
    rw [hs₂pair.1, hs₂pair.2, hwf₃, hany₃]
  refine ⟨hb, ?_⟩
  rw [hb, hfinal]
  cases hx : anyScopeFailed s₂.trace <;> simp [hx]

def runW1 : Except St (Bool × St) := check envW (cfgW false false) rootDir none false

theorem claim1_witness :
    runResult runW1 = !(runStateOf runW1).workspaceFailed ∧
    (runResult runW1 = true ↔ anyScopeFailed (runStateOf runW1).trace = false) :=
  claim1_check_returns_no_failure envW (cfgW false false) rootDir none false
    (runResult runW1) (runStateOf runW1) rfl

/-- C4: every rule's options are validated exactly once per run, before
any scope is processed — a completed run's trace starts with exactly one
validator event per config rule index, and no validator event appears
later; and when validation throws for some rule (given a found workspace
root) the run rejects with an empty stats map, a zero packagesChecked
counter, and a trace of validator events only. -/
theorem claim4_validate_once_up_front (env : Env) (cfg : ResolvedConfig) (cwd : String)
    (paths : Option (List String)) (rep : Bool) :
    (∀ b s₂, check env cfg cwd paths rep = Except.ok (b, s₂) →
      ∃ rest, s₂.trace = (List.range cfg.rules.length).map Event.validate ++ rest ∧
        rest.all (fun e => !isValidateEv e) = true) ∧
    (∀ wd, env.findWorkspaceDir cwd = some wd →
      (∃ r ∈ cfg.rules, r.optionsValid = false) →
      ∃ e, check env cfg cwd paths rep = Except.error e ∧
        e.perRule = [] ∧ e.packagesChecked = 0 ∧ e.trace.all isValidateEv = true) := by
  constructor
  · intro b s₂ h
    obtain ⟨wd, s₁, s₃, hwd, hval, hsc, hs₂, hb⟩ := check_ok_decomp env cfg cwd paths rep b s₂ h
    obtain ⟨hvr, hs₁⟩ := validateRules_ok cfg.rules 0 (tick (tick initSt)) s₁ hval
    obtain ⟨_, _, _, _, ext₂, htr₂, hall₂, _⟩ :=
      checkScopes_ok env cfg.rules (targetScopes env wd cwd paths) (tick s₁) s₃ hsc
    have htr₁ : s₁.trace = (List.range cfg.rules.length).map Event.validate := by
      rw [hs₁, List.range_eq_range' cfg.rules.length]
      simp [tick, initSt]
    cases rep with
    | false =>
      simp only [Bool.false_eq_true, if_false] at hs₂
      refine ⟨ext₂, ?_, ?_⟩
      · rw [hs₂]
        show s₃.trace = _
        rw [htr₂]
        show s₁.trace ++ ext₂ = _
        rw [htr₁]
      · exact all_imp_of (fun e he => by simp [scope_not_validate e he]) ext₂ hall₂
    | true =>
      simp only [if_true] at hs₂
      obtain ⟨extP, heqP, hallP⟩ := runPrintStats_state cfg.rules [] (tick s₃)
      refine ⟨ext₂ ++ extP, ?_, ?_⟩
      · rw [hs₂, heqP]
        show s₃.trace ++ extP = _
        rw [htr₂]
        show (s₁.trace ++ ext₂) ++ extP = _
        rw [htr₁, List.append_assoc]
      · rw [List.all_append]
        simp only [Bool.and_eq_true]
        exact ⟨all_imp_of (fun e he => by simp [scope_not_validate e he]) ext₂ hall₂,
          all_imp_of (fun e he => by simp [print_not_validate e he]) extP hallP⟩
  · intro wd hw hinv
    obtain ⟨e, heq, hpr, hpc, hwfe, ext, htr, hve⟩ :=
      validateRules_err cfg.rules 0 (tick (tick initSt)) hinv
    refine ⟨e, ?_, ?_, ?_, ?_⟩
    · simp only [check, hw, heq]
    · rw [hpr]
      rfl
    · rw [hpc]
      rfl
    · rw [htr]
      show (([] : List Event) ++ ext).all isValidateEv = true
      simpa using hve

theorem claim4_witness :
    (∃ rest, (runStateOf runW1).trace
        = (List.range (cfgW false false).rules.length).map Event.validate ++ rest ∧
      rest.all (fun e => !isValidateEv e) = true) ∧
    (∃ e, check envW cfgBad rootDir none false = Except.error e ∧
      e.perRule = [] ∧ e.packagesChecked = 0 ∧ e.trace.all isValidateEv = true) :=
  ⟨(claim4_validate_once_up_front envW (cfgW false false) rootDir none false).1
      (runResult runW1) (runStateOf runW1) rfl,
    (claim4_validate_once_up_front envW cfgBad rootDir none false).2 rootDir rfl
      ⟨ruleBad, List.mem_cons_of_mem _ (List.mem_cons_self _ _), rfl⟩⟩

/-- C7: after a completed run, the stats map has at most one bucket per
config rule (buckets are keyed by effective rule name, with absent names
sharing the unknown-name bucket and same-named rules sharing one bucket),
and the executions counters sum to the number of checked scopes times the
number of rules — skipped rules included. -/
theorem claim7_stats_shape (env : Env) (cfg : ResolvedConfig) (cwd : String)
    (paths : Option (List String)) (rep : Bool) (b : Bool) (s₂ : St)
    (h : check env cfg cwd paths rep = Except.ok (b, s₂)) :
    s₂.perRule.length ≤ cfg.rules.length ∧
    sumExecutions s₂.perRule = s₂.packagesChecked * cfg.rules.length := by
  obtain ⟨wd, s₁, s₃, hwd, hval, hsc, hs₂, hb⟩ := check_ok_decomp env cfg cwd paths rep b s₂ h
  obtain ⟨hvr, hs₁⟩ := validateRules_ok cfg.rules 0 (tick (tick initSt)) s₁ hval
  obtain ⟨hpc₃, hsum₃, hnd₃, hsub₃, _⟩ :=
    checkScopes_ok env cfg.rules (targetScopes env wd cwd paths) (tick s₁) s₃ hsc
  have hpr₁ : s₁.perRule = [] := by simp [hs₁, tick, initSt]
  have hpcs₁ : s₁.packagesChecked = 0 := by simp [hs₁, tick, initSt]
  have hpr₂ : s₂.perRule = s₃.perRule := by
    cases rep with
    | false =>
      simp only [Bool.false_eq_true, if_false] at hs₂
      rw [hs₂]
      rfl
    | true =>
      simp only [if_true] at hs₂
      obtain ⟨extP, heqP, hallP⟩ := runPrintStats_state cfg.rules [] (tick s₃)
      rw [hs₂, heqP]
      rfl
  have hpc₂ : s₂.packagesChecked = s₃.packagesChecked := by
    cases rep with
    | false =>
      simp only [Bool.false_eq_true, if_false] at hs₂
      rw [hs₂]
      rfl
    | true =>
      simp only [if_true] at hs₂
      obtain ⟨extP, heqP, hallP⟩ := runPrintStats_state cfg.rules [] (tick s₃)
      rw [hs₂, heqP]
      rfl
  have hnodup : (mapKeys s₃.perRule).Nodup := by
    refine hnd₃ ?_
    show (mapKeys s₁.perRule).Nodup
    rw [hpr₁]
    simp [mapKeys]
  have hsubset : ∀ k ∈ mapKeys s₃.perRule, k ∈ effNames cfg.rules := by
    intro k hk
    rcases hsub₃ k hk with hk₁ | hk₁
    · exfalso
      have hmem : k ∈ mapKeys s₁.perRule := hk₁
      rw [hpr₁] at hmem
      simp [mapKeys] at hmem
    · exact hk₁
  constructor
  · rw [hpr₂, length_eq_length_mapKeys]
    calc (mapKeys s₃.perRule).length ≤ (effNames cfg.rules).length :=
        (List.subperm_of_subset hnodup hsubset).length_le
      _ = cfg.rules.length := by simp [effNames]
  · rw [hpr₂, hpc₂, hsum₃, hpc₃]
    have e₁ : sumExecutions (tick s₁).perRule = 0 := by
      show sumExecutions s₁.perRule = 0
      rw [hpr₁]
      rfl
    have e₂ : (tick s₁).packagesChecked = 0 := by
      show s₁.packagesChecked = 0
      exact hpcs₁
    rw [e₁, e₂]
    simp

theorem claim7_witness :
    (runStateOf runW1).perRule.length ≤ (cfgW false false).rules.length ∧
    sumExecutions (runStateOf runW1).perRule
      = (runStateOf runW1).packagesChecked * (cfgW false false).rules.length :=
  claim7_stats_shape envW (cfgW false false) rootDir none false
    (runResult runW1) (runStateOf runW1) rfl

/-- C8: in a run with stats reporting, each distinct printStats function
reference found across the resolved rules is invoked exactly once — the
trace holds exactly one invocation event for a reference present in some
rule (even when several rules share it), and none for absent ones. -/
theorem claim8_printStats_dedup (env : Env) (cfg : ResolvedConfig) (cwd : String)
    (paths : Option (List String)) (b : Bool) (s₂ : St) (fid : Nat)
    (h : check env cfg cwd paths true = Except.ok (b, s₂)) :
    List.count (Event.printStats fid) s₂.trace
      = if fid ∈ cfg.rules.filterMap ResolvedRule.printStats then 1 else 0 := by
  obtain ⟨wd, s₁, s₃, hwd, hval, hsc, hs₂, hb⟩ := check_ok_decomp env cfg cwd paths true b s₂ h
  obtain ⟨hvr, hs₁⟩ := validateRules_ok cfg.rules 0 (tick (tick initSt)) s₁ hval
  obtain ⟨_, _, _, _, ext₂, htr₂, hall₂, _⟩ :=
    checkScopes_ok env cfg.rules (targetScopes env wd cwd paths) (tick s₁) s₃ hsc
  have htr₁ : s₁.trace = (List.range cfg.rules.length).map Event.validate := by
    rw [hs₁, List.range_eq_range' cfg.rules.length]
    simp [tick, initSt]
  have htrv : s₁.trace.all isValidateEv = true := by
    rw [htr₁]
    simp [List.all_eq_true, isValidateEv]
  have hcnt₃ : List.count (Event.printStats fid) (tick s₃).trace = 0 := by
    show List.count _ s₃.trace = 0
    rw [htr₂]
    show List.count _ (s₁.trace ++ ext₂) = 0
    rw [List.count_append, count_zero_of_all s₁.trace (Event.printStats fid) htrv rfl,
      count_zero_of_all ext₂ (Event.printStats fid) hall₂ rfl]
  simp only [if_true] at hs₂
  rw [hs₂, runPrintStats_count cfg.rules [] (tick s₃) fid, hcnt₃]
  simp

def runWP : Except St (Bool × St) := check envW cfgP rootDir none true

theorem claim8_witness :
    List.count (Event.printStats 7) (runStateOf runWP).trace
      = if 7 ∈ cfgP.rules.filterMap ResolvedRule.printStats then 1 else 0 :=
  claim8_printStats_dedup envW cfgP rootDir none
    (runResult runWP) (runStateOf runWP) 7 rfl

/-- C2: the explicit-paths scenario — a config with ruleA (workspace-root
exempt) and ruleB (applies everywhere), a workspace with a root and two
packages, and an explicit path resolving into pkgX: the run checks
exactly one scope, pkgX itself; its scheduling trace runs ruleA then
ruleB exactly once each against pkgX and finishes the scope; and the run
resolves to true exactly when neither rule marks the scope failed. -/
theorem claim2_explicit_paths_scenario (fa fb : Bool) :
    runOk (check envW (cfgW fa fb) rootDir (some [pkgXFile]) false) = true ∧
    runResult (check envW (cfgW fa fb) rootDir (some [pkgXFile]) false) = !(fa || fb) ∧
    (runStateOf (check envW (cfgW fa fb) rootDir (some [pkgXFile]) false)).packagesChecked
      = 1 ∧
    seqEvents (runStateOf (check envW (cfgW fa fb) rootDir (some [pkgXFile]) false)).trace
      = [Event.checkStart pkgXDir 0, Event.checkEnd pkgXDir 0,
         Event.checkStart pkgXDir 1, Event.checkEnd pkgXDir 1,
         Event.finish pkgXDir (fa || fb)] := by
  cases fa <;> cases fb <;> exact ⟨by decide, by decide, by decide, by decide⟩

end Mrl
